import Mathlib

/-!
Shallow embedding of `main.go` from the redash-rate-limit-proxy repository: a
rate-limiting reverse-proxy shim.  Time is modelled in seconds since Go's zero
`time.Time` (as `ℚ`); token counts are `ℚ` (the Go code stores `float64`
token counts inside `golang.org/x/time/rate`, modelled here with exact
rationals).  The HTTP layer is modelled per request: a request carries the
`remember_token` cookie (if any), the raw body bytes (as a `List Char`, one
character per byte) and its arrival time; the middleware produces either an
immediate rejection response or the body that is handed to the reverse-proxy
handler, together with the updated limiter registry.
-/

/-- Decidable equality for `Except`, used to evaluate decoder results on
concrete inputs. -/
instance {ε α : Type} [DecidableEq ε] [DecidableEq α] : DecidableEq (Except ε α) := fun a b =>
  match a, b with
  | .error e, .error f =>
    if h : e = f then .isTrue (by rw [h]) else .isFalse (fun hh => by cases hh; exact h rfl)
  | .ok x, .ok y =>
    if h : x = y then .isTrue (by rw [h]) else .isFalse (fun hh => by cases hh; exact h rfl)
  | .error _, .ok _ => .isFalse (fun hh => by cases hh)
  | .ok _, .error _ => .isFalse (fun hh => by cases hh)

namespace RateProxy

/-! ### Token bucket (`golang.org/x/time/rate.Limiter`) -/

/-- State of a `golang.org/x/time/rate.Limiter`: `limit` is the refill rate in
tokens per second, `burst` the bucket capacity, `tokens` the current token
count, `last` the time of the last state update (seconds since Go's zero
time). -/
structure Limiter where
  limit : ℚ
  burst : ℕ
  tokens : ℚ
  last : ℚ
deriving DecidableEq, Repr

/-- Embedding of `rate.NewLimiter(r, b)`: the constructor leaves `tokens = 0`
and `last` at the zero time, so the first `Allow` call at (large) wall-clock
time `t` sees a full bucket after the elapsed-time refill. -/
def newLimiter (r : ℚ) (b : ℕ) : Limiter :=
  { limit := r, burst := b, tokens := 0, last := 0 }

/-- Embedding of `Limiter.advance`: elapsed-time refill at time `t`.  If `t`
is before `last` the elapsed time is clamped to zero; the refilled count is
capped at `burst`. -/
def Limiter.advance (lim : Limiter) (t : ℚ) : ℚ :=
  let last := if t < lim.last then t else lim.last
  let tokens := lim.tokens + lim.limit * (t - last)
  if (lim.burst : ℚ) < tokens then (lim.burst : ℚ) else tokens

/-- Embedding of `Limiter.Allow()` called at time `t` (`AllowN(t, 1)`): refill
by elapsed time, then admit and consume one token iff `1 ≤ burst` and at least
one token is available; on denial the limiter state is left unchanged. -/
def Limiter.allow (lim : Limiter) (t : ℚ) : Bool × Limiter :=
  let tokens := lim.advance t
  if 1 ≤ lim.burst ∧ 1 ≤ tokens then
    (true, { lim with tokens := tokens - 1, last := t })
  else
    (false, lim)

/-- Run a sequence of `Allow` calls at the given times, collecting results. -/
def Limiter.runAllow (lim : Limiter) : List ℚ → List Bool × Limiter
  | [] => ([], lim)
  | t :: ts =>
    let p := lim.allow t
    let q := p.2.runAllow ts
    (p.1 :: q.1, q.2)

/-! ### Limiter registry (`RateLimiters` in `main.go`) -/

/-- Embedding of the `RateLimiters` struct: a mapping from cookie tokens to
limiters (the Go `map` is modelled as an association list), plus the fixed
rate and burst used when creating limiters.  The mutex only serialises
accesses and has no sequential semantics. -/
structure RateLimiters where
  limiters : List (String × Limiter)
  rate : ℚ
  burst : ℕ
deriving DecidableEq, Repr

/-- Embedding of `NewRateLimiters`. -/
def NewRateLimiters (rl : ℚ) (burst : ℕ) : RateLimiters :=
  { limiters := [], rate := rl, burst := burst }

/-- Map update used to model mutation of the Go map / of a limiter through
its pointer: replace the binding of `token` if present, insert it
otherwise. -/
def setLim (token : String) (v : Limiter) : List (String × Limiter) → List (String × Limiter)
  | [] => [(token, v)]
  | (k, w) :: rest => if k = token then (token, v) :: rest else (k, w) :: setLim token v rest

/-- Embedding of `(*RateLimiters).GetLimiter`: return the existing limiter
for `token` if present, otherwise create a new one with the registry's rate
and burst, insert it, and return it.  The second component is the registry
after the call (the Go code mutates the map in place). -/
def getLimiter (rl : RateLimiters) (token : String) : Limiter × RateLimiters :=
  match rl.limiters.lookup token with
  | some l => (l, rl)
  | none =>
    let lim := newLimiter rl.rate rl.burst
    (lim, { rl with limiters := setLim token lim rl.limiters })

/-- Embedding of one firing of the ticker body in `(*RateLimiters).Flusher`:
replace the whole mapping with a fresh empty map. -/
def RateLimiters.flush (rl : RateLimiters) : RateLimiters :=
  { rl with limiters := [] }

/-! ### JSON body decoding (`json.NewDecoder(r.Body).Decode(&queryPayload)`)

The middleware decodes the request body into `struct { MaxAge int64 }` with
json tag `max_age`.  We embed the relevant fragment of `encoding/json`: a
recursive-descent scan of the first JSON value of the body.  The scanner is
written as a single fuel-indexed function (`parseJ`) instead of three mutually
recursive ones so that it is structurally recursive (mode `.value` parses one
value, `.members` the members of an object after its `\x7b`, `.elements` the
elements of an array after its `[`).  String escapes are modelled by keeping
the escaped character verbatim, which is enough for the field names and values
this program inspects.  Error strings follow `encoding/json` where the exact
text matters to the spec (notably `"EOF"` for an empty body). -/

/-- JSON values, with integers distinguished from other numbers (decoding a
non-integer number into the `int64` field is an error in Go). -/
inductive JVal where
  | jnull
  | jbool (b : Bool)
  | jint (n : ℤ)
  | jnum
  | jstr (s : String)
  | jarr (elems : List JVal)
  | jobj (fields : List (String × JVal))

/-- Result of one scanner call: a value, object members, or array elements. -/
inductive PRes where
  | val (v : JVal)
  | fields (fs : List (String × JVal))
  | elems (vs : List JVal)

/-- Scanner mode: parse one value, object members, or array elements. -/
inductive PMode where
  | value
  | members
  | elements

/-- Skip JSON whitespace. -/
def skipWs : List Char → List Char
  | [] => []
  | c :: cs => if c == ' ' || c == '\t' || c == '\n' || c == '\r' then skipWs cs else c :: cs

/-- Decimal digits to a natural number. -/
def digitsToNat (ds : List Char) : ℕ :=
  ds.foldl (fun a c => 10 * a + (c.toNat - 48)) 0

/-- Scan a JSON string body (after the opening quote), returning its
characters and the rest of the input. -/
def parseStringChars : List Char → Except String (List Char × List Char)
  | [] => .error "unexpected end of JSON input"
  | '\\' :: c :: rest => (parseStringChars rest).map (fun p => (c :: p.1, p.2))
  | '\"' :: rest => .ok ([], rest)
  | c :: rest => (parseStringChars rest).map (fun p => (c :: p.1, p.2))

/-- Scan an exponent part after `e`/`E`. -/
def parseExpPart (cs : List Char) : Except String (List Char) :=
  let cs1 := match cs with
    | '+' :: r => r
    | '-' :: r => r
    | _ => cs
  let p := cs1.span (fun c => c.isDigit)
  if p.1.isEmpty then .error "invalid number literal" else .ok p.2

/-- Scan a JSON number.  Integers yield `jint`; numbers with a fraction or
exponent part yield `jnum`. -/
def parseNumber (cs : List Char) : Except String (JVal × List Char) :=
  let sgn := match cs with
    | '-' :: r => (true, r)
    | _ => (false, cs)
  let p := sgn.2.span (fun c => c.isDigit)
  if p.1.isEmpty then .error "invalid character in number literal" else
  match p.2 with
  | '.' :: r =>
    let p2 := r.span (fun c => c.isDigit)
    if p2.1.isEmpty then .error "invalid number literal" else
    match p2.2 with
    | 'e' :: r3 => (parseExpPart r3).map (fun r4 => (JVal.jnum, r4))
    | 'E' :: r3 => (parseExpPart r3).map (fun r4 => (JVal.jnum, r4))
    | _ => .ok (JVal.jnum, p2.2)
  | 'e' :: r3 => (parseExpPart r3).map (fun r4 => (JVal.jnum, r4))
  | 'E' :: r3 => (parseExpPart r3).map (fun r4 => (JVal.jnum, r4))
  | _ => .ok (JVal.jint (if sgn.1 then -(digitsToNat p.1 : ℤ) else (digitsToNat p.1 : ℤ)), p.2)

/-- Expect the given literal characters. -/
def expectChars : List Char → List Char → Except String (List Char)
  | [], rest => .ok rest
  | _ :: _, [] => .error "unexpected end of JSON input"
  | e :: es, c :: rest => if c == e then expectChars es rest else .error "invalid character in literal"

/-- Recursive-descent JSON scanner (fuel-indexed; the fuel bounds nesting
depth and the number of members, and `input length + 2` always suffices). -/
def parseJ : ℕ → PMode → List Char → Except String (PRes × List Char)
  | 0, _, _ => .error "exceeded max depth"
  | fuel + 1, .value, cs =>
    match skipWs cs with
    | [] => .error "EOF"
    | '\x7b' :: rest =>
      (match skipWs rest with
       | '\x7d' :: r => .ok (.val (JVal.jobj []), r)
       | r1 =>
         match parseJ fuel .members r1 with
         | .ok (.fields fs, r2) => .ok (.val (JVal.jobj fs), r2)
         | .ok (_, _) => .error "invalid scanner state"
         | .error e => .error e)
    | '[' :: rest =>
      (match skipWs rest with
       | ']' :: r => .ok (.val (JVal.jarr []), r)
       | r1 =>
         match parseJ fuel .elements r1 with
         | .ok (.elems vs, r2) => .ok (.val (JVal.jarr vs), r2)
         | .ok (_, _) => .error "invalid scanner state"
         | .error e => .error e)
    | '\"' :: rest => (parseStringChars rest).map (fun p => (.val (JVal.jstr (String.mk p.1)), p.2))
    | 't' :: rest => (expectChars ['r', 'u', 'e'] rest).map (fun r => (.val (JVal.jbool true), r))
    | 'f' :: rest => (expectChars ['a', 'l', 's', 'e'] rest).map (fun r => (.val (JVal.jbool false), r))
    | 'n' :: rest => (expectChars ['u', 'l', 'l'] rest).map (fun r => (.val JVal.jnull, r))
    | c :: rest =>
      if c == '-' || c.isDigit then (parseNumber (c :: rest)).map (fun p => (.val p.1, p.2))
      else .error ("invalid character " ++ String.mk [c] ++ " looking for beginning of value")
  | fuel + 1, .members, cs =>
    (match skipWs cs with
     | '\"' :: rest =>
       match parseStringChars rest with
       | .error e => .error e
       | .ok (key, r1) =>
         match skipWs r1 with
         | ':' :: r2 =>
           (match parseJ fuel .value r2 with
            | .error e => .error e
            | .ok (.val v, r3) =>
              (match skipWs r3 with
               | ',' :: r4 =>
                 (match parseJ fuel .members r4 with
                  | .ok (.fields fs, r5) => .ok (.fields ((String.mk key, v) :: fs), r5)
                  | .ok (_, _) => .error "invalid scanner state"
                  | .error e => .error e)
               | '\x7d' :: r4 => .ok (.fields [(String.mk key, v)], r4)
               | _ => .error "invalid character after object key:value pair")
            | .ok (_, _) => .error "invalid scanner state")
         | _ => .error "invalid character after object key"
     | _ => .error "invalid character looking for beginning of object key string")
  | fuel + 1, .elements, cs =>
    match parseJ fuel .value cs with
    | .error e => .error e
    | .ok (.val v, r1) =>
      (match skipWs r1 with
       | ',' :: r2 =>
         (match parseJ fuel .elements r2 with
          | .ok (.elems vs, r3) => .ok (.elems (v :: vs), r3)
          | .ok (_, _) => .error "invalid scanner state"
          | .error e => .error e)
       | ']' :: r2 => .ok (.elems [v], r2)
       | _ => .error "invalid character after array element")
    | .ok (_, _) => .error "invalid scanner state"

/-- The integer carried by a `jint`, if any. -/
def jintVal : JVal → Option ℤ
  | .jint n => some n
  | _ => none

/-- Unmarshal the decoded object's fields into `struct { MaxAge int64 }`:
only the key `max_age` is looked at; a non-integer value there is an
unmarshalling error; on duplicates the last occurrence wins; if the key is
absent the field keeps its zero value. -/
def maxAgeFromFields (fields : List (String × JVal)) : Except String ℤ :=
  let ms := fields.filter (fun kv => kv.1 == "max_age")
  if ms.all (fun kv => (jintVal kv.2).isSome) then
    .ok (match ms.getLast? with
         | some kv => (jintVal kv.2).getD 0
         | none => 0)
  else
    .error "json: cannot unmarshal value into Go struct field .max_age of type int64"

/-- Embedding of `json.NewDecoder(r.Body).Decode(&queryPayload)` on the body
bytes `s`: decode the first JSON value and produce the resulting `MaxAge`
together with the position just after the first value (used by the tee-buffer
model).  A JSON `null` leaves the struct untouched (`MaxAge = 0`); a
top-level value that is not an object or null is an unmarshalling error. -/
def decodeMaxAge (s : List Char) : Except String (ℤ × ℕ) :=
  match parseJ (s.length + 2) .value s with
  | .error e => .error e
  | .ok (.val v, rest) =>
    match v with
    | .jnull => .ok (0, s.length - rest.length)
    | .jobj fields =>
      (match maxAgeFromFields fields with
       | .ok n => .ok (n, s.length - rest.length)
       | .error e => .error e)
    | _ => .error "json: cannot unmarshal value into Go value of type struct"
  | .ok (_, _) => .error "invalid scanner state"

/-- Number of body bytes the decoder reads from the request body — and hence
the bytes that pass through the `io.TeeReader` into the buffer `b` — when the
first JSON value ends at position `pos` of a body of length `len`.  The
`json.Decoder` reads from the underlying reader in 512-byte refill chunks and
stops refilling once a complete value is buffered, so it consumes whole
chunks, not just the value: `min len (512 * ⌈pos / 512⌉)`.  (Real refill
chunks grow geometrically after the first; the model is exact whenever the
first value ends within the first 512 bytes.) -/
def chunkedReadLen (pos len : ℕ) : ℕ :=
  min len (512 * ((pos + 511) / 512))

/-! ### The middleware (`LimitMiddleware` in `main.go`) -/

/-- The fixed rejection payload `RLPayload` from `main.go`. -/
def RLPayload : String :=
  "\x7b\n    \"job\": \x7b\n        \"error\": \"You have reached the request limit. Please try again later\",\n        \"status\": 4\n    \x7d\n\x7d"

/-- An inbound HTTP request, as far as the middleware inspects it: the value
of the `remember_token` cookie (if present), the raw body bytes (one `Char`
per byte), and the arrival time in seconds since Go's zero time. -/
structure Request where
  rememberToken : Option String
  body : List Char
  time : ℚ
deriving DecidableEq, Repr

/-- An immediate response written by the middleware.  `explicitStatus` is the
status code passed to an explicit `WriteHeader` call; the middleware never
makes one, so writes default to HTTP 200. -/
structure HttpResponse where
  explicitStatus : Option ℕ
  contentType : Option String
  body : String
deriving DecidableEq, Repr

/-- Outcome of the middleware for one request: either an immediate rejection
response (the wrapped handler is never invoked), or the request is forwarded
to the wrapped reverse-proxy handler, which sees `bodySeen` as the request
body (the bytes of the tee buffer `b`). -/
inductive Outcome where
  | rejected (resp : HttpResponse)
  | forwarded (bodySeen : List Char)
deriving DecidableEq, Repr

/-- Embedding of the handler returned by `LimitMiddleware`.  Mirrors
`main.go` lines 72–101: missing cookie and body-decode failures answer
immediately without touching the registry; otherwise
`limiters.GetLimiter(token).Allow()` is evaluated unconditionally (Go's `&&`
evaluates its left operand first), its updated limiter state is visible
through the map (pointer mutation, modelled with `setLim`), and the request
is rejected with `RLPayload` only when `Allow` returned `false` and the
decoded `max_age` is zero; otherwise the tee buffer's contents are installed
as the body and the request is forwarded. -/
def limitMiddleware (rl : RateLimiters) (r : Request) : Outcome × RateLimiters :=
  match r.rememberToken with
  | none => (.rejected ⟨none, none, "No cookie found"⟩, rl)
  | some tok =>
    match decodeMaxAge r.body with
    | .error e => (.rejected ⟨none, none, "Error parsing request body" ++ e⟩, rl)
    | .ok (maxAge, pos) =>
      let rl2 : RateLimiters :=
        { (getLimiter rl tok).2 with
          limiters := setLim tok (((getLimiter rl tok).1).allow r.time).2
                        ((getLimiter rl tok).2).limiters }
      if (((getLimiter rl tok).1).allow r.time).1 = false ∧ maxAge = 0 then
        (.rejected ⟨none, some "application/json", RLPayload⟩, rl2)
      else
        (.forwarded (r.body.take (chunkedReadLen pos r.body.length)), rl2)

/-- Process a sequence of requests, threading the registry. -/
def processAll (rl : RateLimiters) (rs : List Request) : RateLimiters :=
  rs.foldl (fun acc r => (limitMiddleware acc r).2) rl

/-- The registry constructed in `main`: `NewRateLimiters(rate.Every(time.Minute), 15)`,
one token per 60 seconds with burst 15. -/
def mainRateLimiters : RateLimiters :=
  NewRateLimiters (1 / 60) 15

/-! ### Helper lemmas -/

/-- `setLim` installs the binding it writes. -/
theorem lookup_setLim_self (tok : String) (v : Limiter) (l : List (String × Limiter)) :
    (setLim tok v l).lookup tok = some v := by
  induction l with
  | nil => simp [setLim, List.lookup]
  | cons kv rest ih =>
    obtain ⟨k, w⟩ := kv
    by_cases h : k = tok
    · subst h
      simp [setLim, List.lookup]
    · simp only [setLim, if_neg h, List.lookup]
      have : (tok == k) = false := by
        simp [Ne.symm h]
      rw [this]
      exact ih

/-- `setLim` leaves every other binding unchanged. -/
theorem lookup_setLim_ne (tok : String) (v : Limiter) (id2 : String) (h : id2 ≠ tok)
    (l : List (String × Limiter)) :
    (setLim tok v l).lookup id2 = l.lookup id2 := by
  induction l with
  | nil =>
    simp only [setLim, List.lookup]
    have : (id2 == tok) = false := by
      simp [h]
    rw [this]
  | cons kv rest ih =>
    obtain ⟨k, w⟩ := kv
    by_cases hk : k = tok
    · subst hk
      simp only [setLim, if_pos rfl, List.lookup]
      have : (id2 == k) = false := by
        simp [h]
      rw [this]
    · simp only [setLim, if_neg hk, List.lookup]
      cases hek : (id2 == k) with
      | true => rfl
      | false => exact ih

/-- `getLimiter` keeps the registry's rate and burst. -/
theorem getLimiter_rate_burst (rl : RateLimiters) (tok : String) :
    ((getLimiter rl tok).2).rate = rl.rate ∧ ((getLimiter rl tok).2).burst = rl.burst := by
  unfold getLimiter
  cases rl.limiters.lookup tok <;> simp

/-- `getLimiter` leaves every other identity's binding unchanged. -/
theorem getLimiter_lookup_ne (rl : RateLimiters) (tok id2 : String) (h : id2 ≠ tok) :
    ((getLimiter rl tok).2).limiters.lookup id2 = rl.limiters.lookup id2 := by
  unfold getLimiter
  cases hg : rl.limiters.lookup tok with
  | some l => rfl
  | none => simpa using lookup_setLim_ne tok _ id2 h rl.limiters

/-! ### C4: GetLimiter returns the stored limiter or creates, inserts and
returns a fresh one -/

/-- C4: `GetLimiter` returns the already-stored limiter (and leaves the
registry unchanged) when one exists for the identity; otherwise it constructs
a new limiter with the registry's fixed rate and burst, inserts it into the
mapping, and returns it; in both cases the returned limiter is the one the
mapping then holds, and an immediately repeated call returns the same limiter
without creating another one. -/
theorem getLimiter_getOrCreate (rl : RateLimiters) (tok : String) :
    (∀ l0, rl.limiters.lookup tok = some l0 → getLimiter rl tok = (l0, rl)) ∧
    (rl.limiters.lookup tok = none →
      (getLimiter rl tok).1 = newLimiter rl.rate rl.burst ∧
      (getLimiter rl tok).2 =
        { rl with limiters := setLim tok (newLimiter rl.rate rl.burst) rl.limiters }) ∧
    ((getLimiter rl tok).2).limiters.lookup tok = some (getLimiter rl tok).1 ∧
    getLimiter (getLimiter rl tok).2 tok = ((getLimiter rl tok).1, (getLimiter rl tok).2) := by
  refine ⟨?_, ?_, ?_, ?_⟩
  · intro l0 h
    simp [getLimiter, h]
  · intro h
    simp [getLimiter, h]
  · cases hg : rl.limiters.lookup tok with
    | some l => simp [getLimiter, hg]
    | none => simp [getLimiter, hg, lookup_setLim_self]
  · cases hg : rl.limiters.lookup tok with
    | some l => simp [getLimiter, hg]
    | none =>
      have h1 : (getLimiter rl tok).2.limiters.lookup tok = some (getLimiter rl tok).1 := by
        simp [getLimiter, hg, lookup_setLim_self]
      rw [getLimiter, h1]

/-- C4 witness: a concrete registry holding one limiter under key `"a"`:
lookup under `"a"` returns the stored limiter unchanged, and a lookup under
the absent key `"b"` creates, stores and returns a fresh limiter. -/
theorem getLimiter_getOrCreate_witness :
    getLimiter ⟨[("a", ⟨1/60, 15, 3, 7⟩)], 1/60, 15⟩ "a"
        = (⟨1/60, 15, 3, 7⟩, ⟨[("a", ⟨1/60, 15, 3, 7⟩)], 1/60, 15⟩) ∧
    (getLimiter ⟨[("a", ⟨1/60, 15, 3, 7⟩)], 1/60, 15⟩ "b").1 = newLimiter (1/60) 15 ∧
    (getLimiter ⟨[("a", ⟨1/60, 15, 3, 7⟩)], 1/60, 15⟩ "b").2.limiters.lookup "b"
        = some (getLimiter ⟨[("a", ⟨1/60, 15, 3, 7⟩)], 1/60, 15⟩ "b").1 := by
  refine ⟨(getLimiter_getOrCreate ⟨[("a", ⟨1/60, 15, 3, 7⟩)], 1/60, 15⟩ "a").1 _ ?_,
         ?_, (getLimiter_getOrCreate ⟨[("a", ⟨1/60, 15, 3, 7⟩)], 1/60, 15⟩ "b").2.2.1⟩
  · simp [List.lookup]
  · exact ((getLimiter_getOrCreate ⟨[("a", ⟨1/60, 15, 3, 7⟩)], 1/60, 15⟩ "b").2.1
      (by simp [List.lookup])).1

/-! ### C8: missing cookie -/

/-- C8: a request without a `remember_token` cookie is answered with body
exactly `"No cookie found"`, with no Content-Type and no explicit status code
set (so HTTP 200), the wrapped handler is never invoked, and the registry is
untouched. -/
theorem noCookie_rejected (rl : RateLimiters) (r : Request)
    (h : r.rememberToken = none) :
    limitMiddleware rl r = (.rejected ⟨none, none, "No cookie found"⟩, rl) := by
  simp [limitMiddleware, h]

/-- C8 witness: a concrete cookieless request. -/
theorem noCookie_rejected_witness :
    limitMiddleware mainRateLimiters ⟨none, "\x7b\"max_age\":0\x7d".toList, 1000⟩
      = (.rejected ⟨none, none, "No cookie found"⟩, mainRateLimiters) :=
  noCookie_rejected mainRateLimiters ⟨none, "\x7b\"max_age\":0\x7d".toList, 1000⟩ rfl

/-! ### C9: malformed body -/

/-- C9: a request with a cookie whose body fails to decode is answered with
body exactly `"Error parsing request body"` concatenated with the decode
error's text, with no explicit status code set, the wrapped handler is never
invoked, and the registry is untouched. -/
theorem parseError_rejected (rl : RateLimiters) (r : Request) (tok : String) (e : String)
    (hc : r.rememberToken = some tok)
    (hd : decodeMaxAge r.body = .error e) :
    limitMiddleware rl r = (.rejected ⟨none, none, "Error parsing request body" ++ e⟩, rl) := by
  simp [limitMiddleware, hc, hd]

/-- C9 witness: a concrete request with an empty body, which fails to decode
with error text `"EOF"`. -/
theorem parseError_rejected_witness :
    limitMiddleware mainRateLimiters ⟨some "abc", [], 1000⟩
      = (.rejected ⟨none, none, "Error parsing request body" ++ "EOF"⟩, mainRateLimiters) :=
  parseError_rejected mainRateLimiters ⟨some "abc", [], 1000⟩ "abc" "EOF" rfl (by decide)

/-! ### C10: requests rejected before the rate-limit check leave the
registry completely unchanged -/

/-- C10: for every request rejected before the rate-limit check — missing
cookie or body-decode failure — the registry is returned exactly as it was
(no limiter created or touched) and the request is never forwarded; moreover
an empty body is a decode failure (`EOF`), so a bodiless request never
creates a registry entry. -/
theorem preGateReject_registry_unchanged :
    (∀ (rl : RateLimiters) (r : Request),
      (r.rememberToken = none ∨ ∃ e, decodeMaxAge r.body = .error e) →
      (limitMiddleware rl r).2 = rl ∧ ∀ s, (limitMiddleware rl r).1 ≠ Outcome.forwarded s) ∧
    decodeMaxAge [] = .error "EOF" := by
  constructor
  · intro rl r h
    rcases h with h | ⟨e, he⟩
    · simp [limitMiddleware, h]
    · cases hc : r.rememberToken with
      | none => simp [limitMiddleware, hc]
      | some tok => simp [limitMiddleware, hc, he]
  · decide

/-- C10 witness: a concrete bodiless request with a cookie leaves the
one-entry registry exactly as it was and is not forwarded. -/
theorem preGateReject_registry_unchanged_witness :
    (limitMiddleware ⟨[("z", ⟨1/60, 15, 2, 5⟩)], 1/60, 15⟩ ⟨some "abc", [], 1000⟩).2
        = ⟨[("z", ⟨1/60, 15, 2, 5⟩)], 1/60, 15⟩ ∧
    ∀ s, (limitMiddleware ⟨[("z", ⟨1/60, 15, 2, 5⟩)], 1/60, 15⟩ ⟨some "abc", [], 1000⟩).1
        ≠ Outcome.forwarded s :=
  preGateReject_registry_unchanged.1 ⟨[("z", ⟨1/60, 15, 2, 5⟩)], 1/60, 15⟩
    ⟨some "abc", [], 1000⟩ (Or.inr ⟨"EOF", by decide⟩)

/-! ### C6: rate-limited rejection response -/

/-- C6: a request with a cookie and a decodable body with `max_age = 0`, for
which the bucket's `Allow` returns false, is answered with Content-Type
`application/json` and body exactly `RLPayload`, with no explicit status code
set (so HTTP 200), and the wrapped handler is never invoked. -/
theorem rateLimited_rejected (rl : RateLimiters) (r : Request) (tok : String) (pos : ℕ)
    (hc : r.rememberToken = some tok)
    (hd : decodeMaxAge r.body = .ok (0, pos))
    (hden : (((getLimiter rl tok).1).allow r.time).1 = false) :
    (limitMiddleware rl r).1 = .rejected ⟨none, some "application/json", RLPayload⟩ := by
  simp [limitMiddleware, hc, hd, hden]

/-- C6 witness: identity `"abc"` has an empty bucket at time 1000 and sends
`max_age = 0`: the response is the fixed JSON payload. -/
theorem rateLimited_rejected_witness :
    (limitMiddleware ⟨[("abc", ⟨1/60, 15, 0, 1000⟩)], 1/60, 15⟩
        ⟨some "abc", "\x7b\"max_age\":0\x7d".toList, 1000⟩).1
      = .rejected ⟨none, some "application/json", RLPayload⟩ := by
  have hg : (getLimiter ⟨[("abc", ⟨1/60, 15, 0, 1000⟩)], 1/60, 15⟩ "abc").1
      = ⟨1/60, 15, 0, 1000⟩ := by
    simp [getLimiter, List.lookup]
  refine rateLimited_rejected _ _ "abc" 13 rfl (by decide) ?_
  rw [hg]
  simp only [Limiter.allow, Limiter.advance]
  norm_num

/-! ### C5: a flush resets every identity to a fresh full quota -/

/-- Helper: the first `Allow` on a freshly constructed limiter with the
registry's configuration (1 token/60 s, burst 15) succeeds at any wall-clock
time of at least 60 seconds past Go's zero time (in reality the clock is
about 6.4e10 seconds past it). -/
theorem fresh_allow_true (t : ℚ) (ht : 60 ≤ t) :
    ((newLimiter (1/60) 15).allow t).1 = true := by
  simp only [Limiter.allow, Limiter.advance, newLimiter]
  have h0 : ¬ (t < 0) := by linarith
  rw [if_neg h0]
  have h1 : (1 : ℚ) ≤ 0 + 1/60 * (t - 0) := by linarith
  by_cases hc : ((15:ℕ) : ℚ) < 0 + 1/60 * (t - 0)
  · rw [if_pos hc]
    norm_num
  · rw [if_neg hc]
    rw [if_pos ⟨by norm_num, h1⟩]

/-- C5: after a flush replaces the mapping, the registry is empty, so any
identity — whatever its bucket held before — obtains a freshly constructed
limiter on its next `GetLimiter` call, and its first `Allow` succeeds (at any
wall-clock time `t ≥ 60` seconds past Go's zero time). -/
theorem flush_resets_quota (rl : RateLimiters) (tok : String) (t : ℚ)
    (hrate : rl.rate = 1/60) (hburst : rl.burst = 15) (ht : 60 ≤ t) :
    rl.flush.limiters = [] ∧
    (getLimiter rl.flush tok).1 = newLimiter (1/60) 15 ∧
    (((getLimiter rl.flush tok).1).allow t).1 = true := by
  have hg : (getLimiter rl.flush tok).1 = newLimiter (1/60) 15 := by
    simp [getLimiter, RateLimiters.flush, List.lookup, hrate, hburst]
  exact ⟨rfl, hg, by rw [hg]; exact fresh_allow_true t ht⟩

/-- C5 witness: a registry whose only entry is an exhausted bucket for
`"abc"`; after a flush, `"abc"`'s first acquisition succeeds. -/
theorem flush_resets_quota_witness :
    (RateLimiters.flush ⟨[("abc", ⟨1/60, 15, 0, 1000⟩)], 1/60, 15⟩).limiters = [] ∧
    (getLimiter (RateLimiters.flush ⟨[("abc", ⟨1/60, 15, 0, 1000⟩)], 1/60, 15⟩) "abc").1
        = newLimiter (1/60) 15 ∧
    (((getLimiter (RateLimiters.flush ⟨[("abc", ⟨1/60, 15, 0, 1000⟩)], 1/60, 15⟩) "abc").1).allow
        1000).1 = true :=
  flush_resets_quota ⟨[("abc", ⟨1/60, 15, 0, 1000⟩)], 1/60, 15⟩ "abc" 1000 rfl rfl (by norm_num)

/-! ### C7: per-identity isolation -/

/-- Helper: one request never touches the binding of an identity that is not
its own cookie token (and keeps the registry's configuration). -/
theorem middleware_other_identity (rl : RateLimiters) (r : Request) (id2 : String)
    (h : r.rememberToken ≠ some id2) :
    ((limitMiddleware rl r).2).limiters.lookup id2 = rl.limiters.lookup id2 := by
  cases hc : r.rememberToken with
  | none => simp [limitMiddleware, hc]
  | some tok =>
    have htok : id2 ≠ tok := by
      rintro rfl
      exact h hc
    cases hd : decodeMaxAge r.body with
    | error e => simp [limitMiddleware, hc, hd]
    | ok p =>
      obtain ⟨mA, pos⟩ := p
      simp only [limitMiddleware, hc, hd, apply_ite Prod.snd, ite_self]
      rw [lookup_setLim_ne _ _ _ htok, getLimiter_lookup_ne _ _ _ htok]

/-- C7: acquisitions performed by any sequence of requests none of which
carries identity `id2` leave `id2`'s registry binding — and thus its
remaining quota — exactly as it would be had those requests not been sent. -/
theorem identities_isolated (rl : RateLimiters) (rs : List Request) (id2 : String)
    (h : ∀ r ∈ rs, r.rememberToken ≠ some id2) :
    (processAll rl rs).limiters.lookup id2 = rl.limiters.lookup id2 := by
  induction rs generalizing rl with
  | nil => rfl
  | cons r rs ih =>
    have hstep := middleware_other_identity rl r id2 (h r (by simp))
    have htail := ih (limitMiddleware rl r).2 (fun x hx => h x (by simp [hx]))
    calc (processAll rl (r :: rs)).limiters.lookup id2
        = (processAll (limitMiddleware rl r).2 rs).limiters.lookup id2 := rfl
      _ = ((limitMiddleware rl r).2).limiters.lookup id2 := htail
      _ = rl.limiters.lookup id2 := hstep

/-- C7 witness: identity `"a"` exhausts its bucket with two concrete
requests; identity `"b"`'s stored limiter is untouched. -/
theorem identities_isolated_witness :
    (processAll ⟨[("b", ⟨1/60, 15, 7, 500⟩)], 1/60, 15⟩
        [⟨some "a", "\x7b\"max_age\":0\x7d".toList, 1000⟩, ⟨some "a", "\x7b\"max_age\":0\x7d".toList, 1000⟩]
      ).limiters.lookup "b"
      = some ⟨1/60, 15, 7, 500⟩ := by
  have := identities_isolated ⟨[("b", ⟨1/60, 15, 7, 500⟩)], 1/60, 15⟩
    [⟨some "a", "\x7b\"max_age\":0\x7d".toList, 1000⟩, ⟨some "a", "\x7b\"max_age\":0\x7d".toList, 1000⟩]
    "b" (by
      intro r hr
      simp only [List.mem_cons, List.mem_singleton, List.not_mem_nil, or_false] at hr
      rcases hr with rfl | rfl <;> simp)
  rw [this]
  simp [List.lookup]

/-! ### C1: the `max_age` override -/

/-- Helper: the first `Allow` at time 1000 on a freshly constructed limiter
with the registry's configuration admits and consumes one token, leaving 14
of the 15 refilled tokens. -/
theorem allow_fresh_1000 :
    (newLimiter (1/60) 15).allow 1000 = (true, ⟨1/60, 15, 14, 1000⟩) := by
  simp only [Limiter.allow, Limiter.advance, newLimiter]
  norm_num

/-- Helper: `GetLimiter` on the empty registry built in `main` creates the
limiter for `"abc"`. -/
theorem getLimiter_main_abc :
    getLimiter mainRateLimiters "abc"
      = (newLimiter (1/60) 15, ⟨[("abc", newLimiter (1/60) 15)], 1/60, 15⟩) := by
  simp [getLimiter, mainRateLimiters, NewRateLimiters, List.lookup, setLim]

/-- C1 (amended): a request with a cookie and a parseable body with
`max_age ≠ 0` is always forwarded, regardless of bucket state; but the
admission check still invokes `Allow` unconditionally, so the bucket state
after the check is exactly the `Allow`-step result — one token below the
elapsed-time refill value whenever the refilled bucket held at least one
token, and unchanged only when it was empty. -/
theorem override_admitted (rl : RateLimiters) (r : Request) (tok : String) (mA : ℤ) (pos : ℕ)
    (hc : r.rememberToken = some tok)
    (hd : decodeMaxAge r.body = .ok (mA, pos))
    (hm : mA ≠ 0) :
    (limitMiddleware rl r).1 = .forwarded (r.body.take (chunkedReadLen pos r.body.length)) ∧
    ((limitMiddleware rl r).2).limiters.lookup tok
      = some (((getLimiter rl tok).1).allow r.time).2 := by
  simp [limitMiddleware, hc, hd, hm, lookup_setLim_self]

/-- C1 witness: a fresh registry, identity `"abc"`, body `max_age = 5`. -/
theorem override_admitted_witness :
    (limitMiddleware mainRateLimiters ⟨some "abc", "\x7b\"max_age\":5\x7d".toList, 1000⟩).1
        = .forwarded (("\x7b\"max_age\":5\x7d".toList).take
            (chunkedReadLen 13 ("\x7b\"max_age\":5\x7d".toList).length)) ∧
    ((limitMiddleware mainRateLimiters ⟨some "abc", "\x7b\"max_age\":5\x7d".toList, 1000⟩).2).limiters.lookup
        "abc" = some (((getLimiter mainRateLimiters "abc").1).allow 1000).2 :=
  override_admitted mainRateLimiters ⟨some "abc", "\x7b\"max_age\":5\x7d".toList, 1000⟩ "abc" 5 13
    rfl (by decide) (by decide)

/-- C1 counterexample: with a fresh registry, identity `"abc"` sends
`max_age = 5` at time 1000.  The request is admitted (forwarded), but the
bucket is left holding 14 tokens, while elapsed-time refill alone would leave
15 — the admission check did consume a token, contradicting the claim's
"no quota decrement". -/
theorem override_consumes_token :
    (limitMiddleware mainRateLimiters ⟨some "abc", "\x7b\"max_age\":5\x7d".toList, 1000⟩).1
        = Outcome.forwarded "\x7b\"max_age\":5\x7d".toList ∧
    ((limitMiddleware mainRateLimiters ⟨some "abc", "\x7b\"max_age\":5\x7d".toList, 1000⟩).2).limiters.lookup
        "abc" = some ⟨1/60, 15, 14, 1000⟩ ∧
    (newLimiter (1/60) 15).advance 1000 = 15 ∧
    (14 : ℚ) ≠ 15 := by
  have hd : decodeMaxAge "\x7b\"max_age\":5\x7d".toList = .ok (5, 13) := by decide
  have hl : ("\x7b\"max_age\":5\x7d".toList).length = 13 := by decide
  have hmid : limitMiddleware mainRateLimiters ⟨some "abc", "\x7b\"max_age\":5\x7d".toList, 1000⟩
      = (Outcome.forwarded (("\x7b\"max_age\":5\x7d".toList).take (chunkedReadLen 13 13)),
         ⟨[("abc", ⟨1/60, 15, 14, 1000⟩)], 1/60, 15⟩) := by
    simp only [limitMiddleware, hd, hl, getLimiter_main_abc, allow_fresh_1000, setLim]
    norm_num
  refine ⟨?_, ?_, ?_, by norm_num⟩
  · rw [hmid]
    decide
  · rw [hmid]
    simp [List.lookup]
  · simp only [Limiter.advance, newLimiter]
    norm_num

/-! ### C2: body bytes beyond what the decoder read are lost -/

/-- Helper: the scanner consumes exactly the 13 bytes of the object
`max_age = 0` and leaves any further body bytes unread, for any sufficient
fuel.  The tail `junk` is abstract, so this is a statement about every body
that starts with this object. -/
theorem parse_maxAge0_head (f : ℕ) (junk : List Char) :
    parseJ (f + 3) .value ("\x7b\"max_age\":0\x7d".toList ++ junk)
      = .ok (.val (JVal.jobj [("max_age", JVal.jint 0)]), junk) := rfl

/-- Helper: decoding a body that is the 13-byte object `max_age = 0`
followed by 600 further bytes succeeds with value 0 and first-value end
position 13. -/
theorem decode_maxAge0_junk :
    decodeMaxAge ("\x7b\"max_age\":0\x7d".toList ++ List.replicate 600 'a')
      = .ok (0, 13) := by
  have hbl : ("\x7b\"max_age\":0\x7d".toList ++ List.replicate 600 'a').length = 613 := by
    rw [List.length_append, List.length_replicate]
    rfl
  unfold decodeMaxAge
  rw [hbl]
  have hfuel : (613 : ℕ) + 2 = 612 + 3 := by norm_num
  rw [hfuel, parse_maxAge0_head]
  have hm : maxAgeFromFields [("max_age", JVal.jint 0)] = .ok 0 := by decide
  simp only [hm, List.length_replicate]

/-- C2 (code bug): an admitted request whose body is a 13-byte JSON value
followed by 600 more bytes (613 bytes total).  The decoder reads one 512-byte
chunk through the `io.TeeReader`, so the buffer `b` installed as the body for
the forwarding step holds only the first 512 bytes — not the complete
original body the spec requires. -/
theorem tee_truncates_long_body :
    (limitMiddleware mainRateLimiters ⟨some "abc",
        "\x7b\"max_age\":0\x7d".toList ++ List.replicate 600 'a', 1000⟩).1
      = Outcome.forwarded
          (("\x7b\"max_age\":0\x7d".toList ++ List.replicate 600 'a').take 512) ∧
    ("\x7b\"max_age\":0\x7d".toList ++ List.replicate 600 'a').take 512
      ≠ "\x7b\"max_age\":0\x7d".toList ++ List.replicate 600 'a' ∧
    ("\x7b\"max_age\":0\x7d".toList ++ List.replicate 600 'a').length = 613 := by
  have hbl : ("\x7b\"max_age\":0\x7d".toList ++ List.replicate 600 'a').length = 613 := by
    rw [List.length_append, List.length_replicate]
    rfl
  have hchunk : chunkedReadLen 13 (613 : ℕ) = 512 := by decide
  refine ⟨?_, ?_, hbl⟩
  · simp only [limitMiddleware, decode_maxAge0_junk, getLimiter_main_abc, allow_fresh_1000,
      hbl, hchunk]
    norm_num
  · intro h
    have hlen := congrArg List.length h
    rw [List.length_take, hbl] at hlen
    norm_num at hlen

/-! ### C3: burst behaviour and the rolling-window bound -/

/-- Helper: the elapsed-time refill never exceeds the burst capacity. -/
theorem advance_le_burst (lim : Limiter) (t : ℚ) :
    lim.advance t ≤ (lim.burst : ℚ) := by
  simp only [Limiter.advance]
  by_cases h : (lim.burst : ℚ) < lim.tokens + lim.limit * (t - if t < lim.last then t else lim.last)
  · rw [if_pos h]
  · rw [if_neg h]
    exact not_lt.mp h

/-- Helper: the refill keeps the token count nonnegative. -/
theorem advance_nonneg (lim : Limiter) (t : ℚ)
    (h1 : 0 ≤ lim.limit) (h2 : 0 ≤ lim.tokens) : 0 ≤ lim.advance t := by
  simp only [Limiter.advance]
  have helapsed : 0 ≤ t - (if t < lim.last then t else lim.last) := by
    by_cases hl : t < lim.last
    · rw [if_pos hl]
      simp
    · rw [if_neg hl]
      have := not_lt.mp hl
      linarith
  by_cases h : (lim.burst : ℚ) < lim.tokens + lim.limit * (t - if t < lim.last then t else lim.last)
  · rw [if_pos h]
    exact_mod_cast Nat.zero_le _
  · rw [if_neg h]
    nlinarith [mul_nonneg h1 helapsed]

/-- Helper: when time moves forward, the refill adds at most
`limit * elapsed` tokens. -/
theorem advance_le_linear (lim : Limiter) (t : ℚ) (h : lim.last ≤ t) :
    lim.advance t ≤ lim.tokens + lim.limit * (t - lim.last) := by
  simp only [Limiter.advance]
  rw [if_neg (not_lt.mpr h)]
  by_cases hb : (lim.burst : ℚ) < lim.tokens + lim.limit * (t - lim.last)
  · rw [if_pos hb]
    exact le_of_lt hb
  · rw [if_neg hb]

/-- Helper (budget bound): starting from a limiter whose token count is
nonnegative, a nondecreasing sequence of `Allow` calls, all between
`lim.last` and `E`, admits at most `tokens + limit * (E - lim.last)`
requests: the initial budget plus what can refill before `E`. -/
theorem runAllow_count_le (E : ℚ) (ts : List ℚ) :
    ∀ lim : Limiter, 0 ≤ lim.limit → 0 ≤ lim.tokens → lim.tokens ≤ (lim.burst : ℚ) →
      lim.last ≤ E → ts.Pairwise (· ≤ ·) → (∀ x ∈ ts, lim.last ≤ x ∧ x ≤ E) →
      (((lim.runAllow ts).1.count true : ℕ) : ℚ)
        ≤ lim.tokens + lim.limit * (E - lim.last) := by
  induction ts with
  | nil =>
    intro lim h1 h2 _ h4 _ _
    simp only [Limiter.runAllow, List.count_nil, Nat.cast_zero]
    nlinarith [mul_nonneg h1 (sub_nonneg.mpr h4)]
  | cons t ts ih =>
    intro lim h1 h2 h3 h4 hp hmem
    obtain ⟨hlt, hle⟩ := hmem t (by simp)
    obtain ⟨hphead, hptail⟩ := List.pairwise_cons.mp hp
    by_cases hc : 1 ≤ lim.burst ∧ 1 ≤ lim.advance t
    · have hallow : lim.allow t
          = (true, { lim with tokens := lim.advance t - 1, last := t }) := by
        simp only [Limiter.allow]
        rw [if_pos hc]
      simp only [Limiter.runAllow, hallow, List.count_cons]
      have ih' := ih { lim with tokens := lim.advance t - 1, last := t } h1
        (by have := hc.2; simp only; linarith)
        (by have := advance_le_burst lim t; simp only; linarith)
        (by simp only; exact hle) hptail
        (fun x hx => ⟨by simp only; exact hphead x hx, (hmem x (List.mem_cons_of_mem t hx)).2⟩)
      simp only at ih'
      have hadv := advance_le_linear lim t hlt
      have hone : (if (true == true) = true then 1 else 0) = 1 := rfl
      rw [hone]
      push_cast
      linarith
    · have hallow : lim.allow t = (false, lim) := by
        simp only [Limiter.allow]
        rw [if_neg hc]
      simp only [Limiter.runAllow, hallow, List.count_cons]
      have ih' := ih lim h1 h2 h3 h4 hptail
        (fun x hx => (hmem x (List.mem_cons_of_mem t hx)))
      have hzero : (if (false == true) = true then 1 else 0) = 0 := rfl
      rw [hzero, Nat.add_zero]
      linarith [ih']

/-- Helper (window bound): over any window `[a, E]`, a nondecreasing call
sequence whose calls all lie in the window is admitted at most
`burst + limit * (E - a)` times, from any nonnegative-token state. -/
theorem runAllow_window_le (a E : ℚ) (ts : List ℚ) :
    ∀ lim : Limiter, 0 ≤ lim.limit → 0 ≤ lim.tokens → lim.tokens ≤ (lim.burst : ℚ) →
      a ≤ E → ts.Pairwise (· ≤ ·) → (∀ x ∈ ts, a ≤ x ∧ x ≤ E) →
      (((lim.runAllow ts).1.count true : ℕ) : ℚ) ≤ (lim.burst : ℚ) + lim.limit * (E - a) := by
  induction ts with
  | nil =>
    intro lim h1 h2 _ haE _ _
    simp only [Limiter.runAllow, List.count_nil, Nat.cast_zero]
    have hb : (0 : ℚ) ≤ (lim.burst : ℚ) := by exact_mod_cast Nat.zero_le _
    nlinarith [mul_nonneg h1 (sub_nonneg.mpr haE)]
  | cons t ts ih =>
    intro lim h1 h2 h3 haE hp hmem
    obtain ⟨hta, htE⟩ := hmem t (by simp)
    obtain ⟨hphead, hptail⟩ := List.pairwise_cons.mp hp
    by_cases hc : 1 ≤ lim.burst ∧ 1 ≤ lim.advance t
    · have hallow : lim.allow t
          = (true, { lim with tokens := lim.advance t - 1, last := t }) := by
        simp only [Limiter.allow]
        rw [if_pos hc]
      simp only [Limiter.runAllow, hallow, List.count_cons]
      have htail := runAllow_count_le E ts { lim with tokens := lim.advance t - 1, last := t }
        h1 (by have := hc.2; simp only; linarith)
        (by have := advance_le_burst lim t; simp only; linarith)
        (by simp only; exact htE) hptail
        (fun x hx => ⟨by simp only; exact hphead x hx, (hmem x (List.mem_cons_of_mem t hx)).2⟩)
      simp only at htail
      have hadv := advance_le_burst lim t
      have hmul : lim.limit * (E - t) ≤ lim.limit * (E - a) :=
        mul_le_mul_of_nonneg_left (by linarith) h1
      have hone : (if (true == true) = true then 1 else 0) = 1 := rfl
      rw [hone]
      push_cast
      linarith
    · have hallow : lim.allow t = (false, lim) := by
        simp only [Limiter.allow]
        rw [if_neg hc]
      simp only [Limiter.runAllow, hallow, List.count_cons]
      have ih' := ih lim h1 h2 h3 haE hptail
        (fun x hx => hmem x (List.mem_cons_of_mem t hx))
      have hzero : (if (false == true) = true then 1 else 0) = 0 := rfl
      rw [hzero, Nat.add_zero]
      linarith [ih']

/-- Helper: the first `Allow` at any time `t ≥ 900` on a freshly constructed
limiter with the registry's configuration refills to the full burst of 15 and
consumes one token. -/
theorem first_allow_full (t : ℚ) (ht : 900 ≤ t) :
    (newLimiter (1/60) 15).allow t = (true, ⟨1/60, 15, 14, t⟩) := by
  simp only [Limiter.allow, Limiter.advance, newLimiter]
  have h0 : ¬ (t < 0) := by linarith
  rw [if_neg h0]
  have h15le : ((15:ℕ):ℚ) ≤ 0 + 1/60 * (t - 0) := by push_cast; linarith
  by_cases hgt : ((15:ℕ):ℚ) < 0 + 1/60 * (t - 0)
  · rw [if_pos hgt, if_pos ⟨by norm_num, by push_cast; norm_num⟩]
    norm_num [Prod.mk.injEq, Limiter.mk.injEq]
  · have heq : 0 + 1/60 * (t - 0) = ((15:ℕ):ℚ) := le_antisymm (not_lt.mp hgt) h15le
    rw [if_neg hgt, heq, if_pos ⟨by norm_num, by push_cast; norm_num⟩]
    norm_num [Prod.mk.injEq, Limiter.mk.injEq]

/-- Helper: an `Allow` call at the limiter's own `last` time (zero elapsed
time) with a natural token count `m ≤ 15` succeeds iff a token is left,
consuming one. -/
theorem allow_same_time_nat (m : ℕ) (t : ℚ) (hm : m ≤ 15) :
    (Limiter.mk (1/60) 15 (m:ℚ) t).allow t
      = if 1 ≤ m then (true, ⟨1/60, 15, ((m - 1 : ℕ) : ℚ), t⟩)
        else (false, ⟨1/60, 15, (m:ℚ), t⟩) := by
  simp only [Limiter.allow, Limiter.advance]
  rw [if_neg (lt_irrefl t)]
  have hz : (m:ℚ) + 1/60 * (t - t) = (m:ℚ) := by ring
  rw [hz]
  have hmle : ¬ (((15:ℕ):ℚ) < (m:ℚ)) := by
    push_cast
    exact not_lt.mpr (by exact_mod_cast hm)
  rw [if_neg hmle]
  by_cases h1 : 1 ≤ m
  · rw [if_pos h1, if_pos ⟨by norm_num, by exact_mod_cast h1⟩]
    have hc1 : ((m - 1 : ℕ) : ℚ) = (m : ℚ) - 1 := by
      rw [Nat.cast_sub h1]
      norm_num
    rw [hc1]
  · have hm0 : m = 0 := by omega
    subst hm0
    rw [if_neg h1, if_neg (fun hcon => by norm_num at hcon)]

/-- Helper: `n` `Allow` calls with zero elapsed time from a bucket holding
`m ≤ 15` whole tokens admit exactly the first `min n m` calls. -/
theorem runAllow_same_time (t : ℚ) (n : ℕ) :
    ∀ m : ℕ, m ≤ 15 →
      ((Limiter.mk (1/60) 15 (m:ℚ) t).runAllow (List.replicate n t)).1
        = List.replicate (min n m) true ++ List.replicate (n - m) false := by
  induction n with
  | zero =>
    intro m hm
    simp [Limiter.runAllow]
  | succ n ih =>
    intro m hm
    rw [List.replicate_succ]
    simp only [Limiter.runAllow]
    rw [allow_same_time_nat m t hm]
    by_cases h1 : 1 ≤ m
    · rw [if_pos h1]
      simp only
      rw [ih (m-1) (by omega)]
      have h2 : min (n+1) m = min n (m-1) + 1 := by omega
      have h3 : (n+1) - m = n - (m-1) := by omega
      rw [h2, h3, List.replicate_succ, List.cons_append]
    · have hm0 : m = 0 := by omega
      subst hm0
      rw [if_neg h1]
      simp only
      rw [ih 0 (by omega)]
      simp [List.replicate_succ]

/-- Helper: one step of `runAllow`. -/
theorem runAllow_cons (lim : Limiter) (t : ℚ) (ts : List ℚ) :
    lim.runAllow (t :: ts)
      = ((lim.allow t).1 :: ((lim.allow t).2.runAllow ts).1,
         ((lim.allow t).2.runAllow ts).2) := rfl

/-- C3: on the registry's bucket configuration (1 token per 60 s, burst 15),
a freshly created limiter admits exactly 15 `Allow` calls performed with no
elapsed time between them and denies the 16th (at any wall-clock time at
least 900 s past Go's zero time, which every real clock satisfies); and, in
general, over any time window `[a, a + w]` the number of admitted calls of a
nondecreasing call sequence never exceeds `burst + rate * w`, whatever
nonnegative-token state the limiter starts in. -/
theorem tokenBucket_burst_and_window :
    (∀ t : ℚ, 900 ≤ t →
      ((newLimiter (1/60) 15).runAllow (List.replicate 16 t)).1
        = List.replicate 15 true ++ [false]) ∧
    (∀ (lim : Limiter) (ts : List ℚ) (a w : ℚ),
      0 ≤ lim.limit → 0 ≤ lim.tokens → lim.tokens ≤ (lim.burst : ℚ) → 0 ≤ w →
      ts.Pairwise (· ≤ ·) → (∀ x ∈ ts, a ≤ x ∧ x ≤ a + w) →
      (((lim.runAllow ts).1.count true : ℕ) : ℚ) ≤ (lim.burst : ℚ) + lim.limit * w) := by
  constructor
  · intro t ht
    rw [show List.replicate 16 t = t :: List.replicate 15 t from rfl]
    rw [runAllow_cons, first_allow_full t ht]
    show true :: ((Limiter.mk (1/60) 15 14 t).runAllow (List.replicate 15 t)).1
        = List.replicate 15 true ++ [false]
    have hcast : (14 : ℚ) = ((14 : ℕ) : ℚ) := by norm_num
    have hrun := runAllow_same_time t 15 14 (by norm_num)
    rw [hcast, hrun]
    norm_num [List.replicate_succ]
  · intro lim ts a w h1 h2 h3 hw hp hmem
    have := runAllow_window_le a (a + w) ts lim h1 h2 h3 (by linarith) hp hmem
    have harith : a + w - a = w := by ring
    rw [harith] at this
    exact this

/-- C3 witness: 16 calls at time 1000 on a fresh limiter admit exactly the
first 15; and a concrete one-call sequence inside the window `[0, 60]` from a
full bucket respects the window bound `15 + (1/60) * 60`. -/
theorem tokenBucket_burst_and_window_witness :
    ((newLimiter (1/60) 15).runAllow (List.replicate 16 1000)).1
      = List.replicate 15 true ++ [false] ∧
    ((((Limiter.mk (1/60) 15 15 0).runAllow [30]).1.count true : ℕ) : ℚ)
      ≤ (((15:ℕ) : ℚ)) + (1/60) * 60 := by
  constructor
  · exact tokenBucket_burst_and_window.1 1000 (by norm_num)
  · exact tokenBucket_burst_and_window.2 (Limiter.mk (1/60) 15 15 0) [30] 0 60
      (by norm_num) (by norm_num) (by push_cast; norm_num) (by norm_num)
      (List.pairwise_singleton _ _)
      (by
        intro x hx
        simp only [List.mem_singleton] at hx
        subst hx
        norm_num)

end RateProxy

